import Mathlib

/-!
# Verification of the Overdr1ve race-resolution environment

A shallow embedding of `data_experiment/overdr1ve_env.py` (class `Overdr1veEnv`)
and proofs about it.  Python floats are modelled as rationals (`ℚ`), Python ints
as `Int`, pandas rows as Lean structures, and the per-step Gaussian tie-break
draw as an explicit list of rationals passed to `step` (so that statements can
quantify over every outcome of the perturbation).  Exceptions are modelled with
`Except`: a call that raises returns an `error` value, paired with the state the
Python object holds after the call (mutations that happen before the raise are
kept, mutations after it are not).
-/

namespace Overdrive

/-! ## Python string helpers

`str.strip`, `str.split()` (whitespace, empties dropped), `str.split("/")`
(empties kept) and `int(...)` on a token, modelled over `List Char`. -/

def isPySpace (c : Char) : Bool := c.isWhitespace

/-- `str.strip()`: drop leading and trailing whitespace. -/
def pyStrip (s : String) : String :=
  ⟨((s.data.dropWhile isPySpace).reverse.dropWhile isPySpace).reverse⟩

/-- Helper for `str.split()` with no separator: accumulate the current word
(reversed in `acc`) and emit maximal nonempty runs of non-whitespace. -/
def splitWsAux : List Char → List Char → List (List Char)
  | [], acc => if acc.isEmpty then [] else [acc.reverse]
  | c :: cs, acc =>
    if isPySpace c then
      if acc.isEmpty then splitWsAux cs [] else acc.reverse :: splitWsAux cs []
    else splitWsAux cs (c :: acc)

/-- `s.split()`: whitespace-separated tokens, empties dropped. -/
def pySplitWs (s : String) : List String :=
  (splitWsAux s.data []).map fun cs => ⟨cs⟩

/-- Helper for `s.split("/")`: split on a separator character, keeping empty
pieces (as Python does for an explicit separator). -/
def splitCharAux (sep : Char) : List Char → List Char → List (List Char)
  | [], acc => [acc.reverse]
  | c :: cs, acc =>
    if c = sep then acc.reverse :: splitCharAux sep cs []
    else splitCharAux sep cs (c :: acc)

def pySplitChar (sep : Char) (s : String) : List String :=
  (splitCharAux sep s.data []).map fun cs => ⟨cs⟩

/-- Value of an ASCII decimal digit. -/
def digitVal (c : Char) : Option Nat :=
  if c = '0' then some 0 else if c = '1' then some 1 else if c = '2' then some 2
  else if c = '3' then some 3 else if c = '4' then some 4 else if c = '5' then some 5
  else if c = '6' then some 6 else if c = '7' then some 7 else if c = '8' then some 8
  else if c = '9' then some 9 else none

/-- Digits-only accumulator for `int(...)`. -/
def natOfDigitsAux : List Char → Nat → Option Nat
  | [], acc => some acc
  | c :: cs, acc =>
    match digitVal c with
    | some d => natOfDigitsAux cs (acc * 10 + d)
    | none => none

/-- Nonempty all-digit strings to `Nat`. -/
def natOfDigits : List Char → Option Nat
  | [] => none
  | cs => natOfDigitsAux cs 0

/-- Python `int(token)` on a whitespace-free token: optional sign followed by
at least one decimal digit.  (Python additionally accepts underscore digit
separators and non-ASCII digits; no cell in scope uses those.) -/
def pyToInt : String → Option Int
  | s =>
    match s.data with
    | '+' :: cs => (natOfDigits cs).map fun n => (n : Int)
    | '-' :: cs => (natOfDigits cs).map fun n => -(n : Int)
    | cs => (natOfDigits cs).map fun n => (n : Int)

/-- Lexicographic ≤ on code points: Python's `<` on `str`, used by `sorted`. -/
def charListLe : List Char → List Char → Bool
  | [], _ => true
  | _ :: _, [] => false
  | a :: as, b :: bs =>
    if a.toNat < b.toNat then true
    else if b.toNat < a.toNat then false
    else charListLe as bs

def pyStrLe (a b : String) : Bool := charListLe a.data b.data

/-! ## Cell parsers (`_split_track_types`, `_parse_type_bonus`) -/

/-- `_split_track_types`: `"Sunny/Night" -> {"Sunny", "Night"}`; `"-"` or empty
-> empty set.  The Python set is modelled as a list of the kept parts; only
membership and emptiness are ever consumed, so duplicates are irrelevant. -/
def split_track_types (cell : String) : List String :=
  let t := pyStrip cell
  if t = "-" ∨ t = "" then []
  else ((pySplitChar '/' t).map pyStrip).filter fun p => p ≠ ""

/-- The whitespace tokens of a stripped cell (`s.strip().split()`). -/
def pyTokens (cell : String) : List String :=
  pySplitWs (pyStrip cell)

/-- `_parse_type_bonus`: parse a cell like `"30 Core Power"` or `"20 Max Laps"`
into `(bonus_core, bonus_max)`.  The Python code returns `(0,0)` for an empty
stripped cell (`if not s`), which coincides with the token list being empty;
it then tries `int(parts[0])`, returning `(0,0)` on failure, and otherwise
checks for the literal `"Core"` (then `"Max"`) anywhere among the remaining
tokens — the third word (`"Power"`/`"Laps"`) is never inspected. -/
def parse_type_bonus (cell : String) : Int × Int :=
  match pyTokens cell with
  | [] => (0, 0)
  | numTok :: rest =>
    match pyToInt numTok with
    | none => (0, 0)
    | some val =>
      if "Core" ∈ rest then (val, 0)
      else if "Max" ∈ rest then (0, val)
      else (0, 0)

/-! ## Data model

Rows of the validated dataframes (`_validate_tracks` / `_validate_cars` /
`_validate_upgrades` coerce laps to `int` and powers to `float`; the derived
`_CarTrackTypesSet` column is unused by the rules and omitted). -/

structure Track where
  name : String
  totalLaps : Int
  trackType : String
  typeBonus : String
deriving DecidableEq

structure Car where
  name : String
  corePower : ℚ
  maxLaps : Int
  trackType : String
deriving DecidableEq

structure Upgrade where
  name : String
  corePower : ℚ
  maxLaps : Int
  trackTypeCondition : String
deriving DecidableEq

structure ActionSpec where
  name : String
  add_core : ℚ
  add_max : Int
  cond : List String
deriving DecidableEq

def noUpgradeAction : ActionSpec :=
  { name := "No Upgrade", add_core := 0, add_max := 0, cond := [] }

/-- `_build_actions`: index 0 is always the no-op; one entry per upgrade row in
file order (an absent table and an empty table alike yield just the no-op). -/
def build_actions (upgrades : Option (List Upgrade)) : List ActionSpec :=
  match upgrades with
  | none => [noUpgradeAction]
  | some l =>
    noUpgradeAction :: l.map fun u =>
      { name := u.name
        add_core := u.corePower
        add_max := u.maxLaps
        cond := split_track_types u.trackTypeCondition }

def DEFAULT_POINTS_BY_POSITION : List Int := [25, 18, 15, 12, 10, 8, 6, 4, 2, 1]

/-- The constructed environment (`Overdr1veEnv.__init__` output). -/
structure Env where
  tracks : List Track
  cars : List Car
  agent_car_id : Nat
  agent_car : Car
  opponents : List Car
  points_by_position : List Int
  actions_catalog : List ActionSpec
  TRACK_TYPES : List String
  shuffle_tracks_each_reset : Bool
deriving DecidableEq

def Env.n_actions (e : Env) : Nat := e.actions_catalog.length

/-- `Overdr1veEnv.__init__`.  `none` models the `ValueError` for an agent index
out of range (the index, a `Nat` here, is also required non-negative by the
Python check).  Note the points table: Python evaluates
`list(points_by_position or DEFAULT_POINTS_BY_POSITION)`, so an *empty*
supplied table is falsy and is replaced by the default before padding. -/
def mkEnv (tracks : List Track) (cars : List Car) (upgrades : Option (List Upgrade))
    (agent_car_id : Nat) (points_by_position : Option (List Int))
    (shuffle_tracks_each_reset : Bool) : Option Env :=
  if h : agent_car_id < cars.length then
    let base :=
      match points_by_position with
      | none => DEFAULT_POINTS_BY_POSITION
      | some l => if l.isEmpty then DEFAULT_POINTS_BY_POSITION else l
    some
      { tracks := tracks
        cars := cars
        agent_car_id := agent_car_id
        agent_car := cars.get ⟨agent_car_id, h⟩
        opponents := cars.eraseIdx agent_car_id
        points_by_position := base ++ List.replicate (cars.length - base.length) 0
        actions_catalog := build_actions upgrades
        TRACK_TYPES :=
          List.insertionSort (fun a b => pyStrLe a b = true) (tracks.map Track.trackType).dedup
        shuffle_tracks_each_reset := shuffle_tracks_each_reset }
  else none

/-- Mutable runtime state: `self._tracks_df` (set at reset, possibly a shuffle
of the originals), `self.track_idx`, `self.total_reward`. -/
structure EnvState where
  tracks : List Track
  track_idx : Nat
  total_reward : ℚ
deriving DecidableEq

/-! ## Race resolver (`_rank_and_points`) -/

/-- Python compares `bool`s as the integers `False = 0 < True = 1`. -/
def pyBoolVal : Bool → Nat
  | false => 0
  | true => 1

/-- The Python sort key of competitor `i`:
`(grid_dnf[i], -(grid_core[i] + noise[i]))`, with `False < True` rendered as
`0 < 1`. -/
def sortKey (core noise : List ℚ) (dnf : List Bool) (i : Nat) : Nat × ℚ :=
  (pyBoolVal (dnf.getD i false), -(core.getD i 0 + noise.getD i 0))

/-- Lexicographic comparison of sort keys, as Python compares tuples. -/
def keyLe (core noise : List ℚ) (dnf : List Bool) (i j : Nat) : Prop :=
  (sortKey core noise dnf i).1 < (sortKey core noise dnf j).1 ∨
    ((sortKey core noise dnf i).1 = (sortKey core noise dnf j).1 ∧
      (sortKey core noise dnf i).2 ≤ (sortKey core noise dnf j).2)

instance keyLe.decidableRel (core noise : List ℚ) (dnf : List Bool) :
    DecidableRel (keyLe core noise dnf) := fun i j => by
  unfold keyLe; exact inferInstance

/-- `sorted(idxs, key=...)`: Python's `sorted` is the stable sort by the key,
and `List.insertionSort` under the total transitive relation `keyLe` computes
exactly the stable sort, hence the same list. -/
def rankOrder (core : List ℚ) (dnf : List Bool) (noise : List ℚ) : List Nat :=
  List.insertionSort (keyLe core noise dnf) (List.range core.length)

/-- `order.index(agent_index) + 1`: the 1-based position. -/
def racePosition (core : List ℚ) (dnf : List Bool) (noise : List ℚ)
    (agent_index : Nat) : Nat :=
  (rankOrder core dnf noise).indexOf agent_index + 1

/-- `_rank_and_points`.  `none` models the `IndexError` Python would raise if
`position - 1` fell outside the points table. -/
def rank_and_points (points_by_position : List Int) (grid_core : List ℚ)
    (grid_dnf : List Bool) (noise : List ℚ) (agent_index : Nat) : Option (Nat × Int) :=
  let position := racePosition grid_core grid_dnf noise agent_index
  if grid_dnf.getD agent_index false then some (position, 0)
  else (points_by_position.get? (position - 1)).map fun p => (position, p)

/-! ## Effective stats (`_effective_stats_for_car`) -/

/-- `_upgrade_applies_on_track`.  Callers have already validated
`action_idx < len(actions_catalog)`, so the `getD` default is never consulted
on the paths `step` takes. -/
def upgrade_applies_on_track (catalog : List ActionSpec) (action_idx : Nat)
    (track_type : String) : Bool :=
  let a := catalog.getD action_idx noUpgradeAction
  a.cond.isEmpty || decide (track_type ∈ a.cond)

/-- `_effective_stats_for_car`.  The Python function also returns a constant
`True` third component that no caller reads; it is dropped here. -/
def effective_stats_for_car (catalog : List ActionSpec) (base_core : ℚ) (base_max : Int)
    (track_type : String) (track_bonus_core track_bonus_max : Int)
    (action_idx : Nat) : ℚ × Int :=
  let core := base_core + (track_bonus_core : ℚ)
  let max_laps := base_max + track_bonus_max
  if upgrade_applies_on_track catalog action_idx track_type then
    let a := catalog.getD action_idx noUpgradeAction
    (core + a.add_core, max_laps + a.add_max)
  else
    (core, max_laps)

/-! ## The step pipeline -/

/-- Agent block of `step`: `_effective_stats_for_car` on the agent's base stats
with the chosen action. -/
def agentEffective (e : Env) (track_type : String) (bc bm : Int)
    (action_idx : Nat) : ℚ × Int :=
  effective_stats_for_car e.actions_catalog e.agent_car.corePower e.agent_car.maxLaps
    track_type bc bm action_idx

/-- `opp_core_eff = opp_core + bonus_core`. -/
def oppCoreEff (e : Env) (bc : Int) : List ℚ :=
  e.opponents.map fun c => c.corePower + (bc : ℚ)

/-- `opp_max_eff = opp_max + bonus_max`. -/
def oppMaxEff (e : Env) (bm : Int) : List Int :=
  e.opponents.map fun c => c.maxLaps + bm

/-- `opp_dnf = opp_max_eff < req_laps` (elementwise). -/
def oppDnf (e : Env) (bm req : Int) : List Bool :=
  (oppMaxEff e bm).map fun m => decide (m < req)

/-- `grid_core = concatenate([opp_core_eff, [agent_core]])`. -/
def gridCore (e : Env) (tr : Track) (action_idx : Nat) : List ℚ :=
  let b := parse_type_bonus tr.typeBonus
  oppCoreEff e b.1 ++ [(agentEffective e tr.trackType b.1 b.2 action_idx).1]

/-- The effective max laps of the whole grid, opponents first, agent last.
The code keeps `opp_max_eff` and `agent_max` as two variables; this definition
merely lays them side by side in grid order for the statements below. -/
def gridMaxLaps (e : Env) (tr : Track) (action_idx : Nat) : List Int :=
  let b := parse_type_bonus tr.typeBonus
  oppMaxEff e b.2 ++ [(agentEffective e tr.trackType b.1 b.2 action_idx).2]

/-- `grid_dnf = concatenate([opp_dnf, [agent_dnf]])`. -/
def gridDnf (e : Env) (tr : Track) (action_idx : Nat) : List Bool :=
  let b := parse_type_bonus tr.typeBonus
  oppDnf e b.2 tr.totalLaps ++
    [decide ((agentEffective e tr.trackType b.1 b.2 action_idx).2 < tr.totalLaps)]

/-- `_track_row`: `none` models the `RuntimeError` raised when the cursor is
out of bounds (the cursor, a `Nat` here, is never negative in Python either). -/
def track_row (s : EnvState) : Option Track := s.tracks.get? s.track_idx

def obsDim (e : Env) : Nat := 2 + e.TRACK_TYPES.length + 1 + 2

/-- `_get_obs`.  `none` propagates `_track_row`'s failure.  On every state
reachable from `reset` the current track's type is in `TRACK_TYPES` (the
vocabulary is built from the same track list), so the total `indexOf` matches
Python's raising `.index`; the mean over an empty opponent list is `0` here
where pandas produces `NaN` — no claim inspects either value. -/
def get_obs (e : Env) (s : EnvState) : Option (List ℚ) :=
  match track_row s with
  | none => none
  | some tr =>
    let k := e.TRACK_TYPES.indexOf tr.trackType
    let onehot := (List.range e.TRACK_TYPES.length).map fun m => if m = k then (1 : ℚ) else 0
    let oppMeanCore := (e.opponents.map Car.corePower).sum / (e.opponents.length : ℚ)
    let oppMeanMax := (((e.opponents.map Car.maxLaps).sum : Int) : ℚ) / (e.opponents.length : ℚ)
    some ([e.agent_car.corePower, (e.agent_car.maxLaps : ℚ)] ++ onehot ++
      [(tr.totalLaps : ℚ), oppMeanCore, oppMeanMax])

inductive StepErr where
  | actionError
  | cursorError
  | indexError
deriving DecidableEq

/-- The parts of `step`'s return value (and of its `info` record) that the
claims talk about. -/
structure StepOut where
  obs : List ℚ
  reward : ℚ
  terminated : Bool
  truncated : Bool
  position : Nat
  points : Int
  agent_effective_core : ℚ
  agent_effective_max : Int
  agent_dnf : Bool
deriving DecidableEq

/-- The body of `step` once the action has been validated and the current
track row fetched: build the grids, resolve rank and points, mutate the
cursor and the accumulated return, and assemble the outputs. -/
def stepOnTrack (e : Env) (s : EnvState) (tr : Track) (a : Nat) (noise : List ℚ) :
    Except StepErr StepOut × EnvState :=
  let gc := gridCore e tr a
  let gd := gridDnf e tr a
  let agent_grid_idx := gc.length - 1
  match rank_and_points e.points_by_position gc gd noise agent_grid_idx with
  | none => (.error .indexError, s)
  | some pp =>
    let reward : ℚ := (pp.2 : ℚ)
    let s' : EnvState :=
      { s with total_reward := s.total_reward + reward, track_idx := s.track_idx + 1 }
    let terminated := decide (s.tracks.length ≤ s'.track_idx)
    let obs := if terminated then List.replicate (obsDim e) (0 : ℚ)
               else (get_obs e s').getD []
    let b := parse_type_bonus tr.typeBonus
    let ag := agentEffective e tr.trackType b.1 b.2 a
    (.ok { obs := obs, reward := reward, terminated := terminated, truncated := false,
           position := pp.1, points := pp.2,
           agent_effective_core := ag.1, agent_effective_max := ag.2,
           agent_dnf := decide (ag.2 < tr.totalLaps) }, s')

/-- `step`.  The second component is the state the object holds after the call:
Python raises before any mutation, so on `error` it is exactly the pre-call
state.  `noise` is the tie-break draw `rng.normal(0, 1e-6, len(grid_core))`,
passed in explicitly so statements can quantify over its outcomes.
`actionError` is the `ValueError` for an out-of-range action. -/
def stepFull (e : Env) (s : EnvState) (action : Int) (noise : List ℚ) :
    Except StepErr StepOut × EnvState :=
  if ¬ (0 ≤ action ∧ action < (e.n_actions : Int)) then (.error .actionError, s)
  else
    match track_row s with
    | none => (.error .cursorError, s)
    | some tr => stepOnTrack e s tr action.toNat noise

/-- `reset`.  `shuffled` stands for the permutation the seeded RNG would draw;
it is consulted only when shuffling is enabled.  Python sets the cursor and the
accumulated return *before* computing the observation, so the returned state
carries those mutations even when the observation raises (`error`). -/
def resetFull (e : Env) (shuffled : List Track) : Except StepErr (List ℚ) × EnvState :=
  let tracksInUse := if e.shuffle_tracks_each_reset then shuffled else e.tracks
  let s : EnvState := { tracks := tracksInUse, track_idx := 0, total_reward := 0 }
  match get_obs e s with
  | none => (.error .cursorError, s)
  | some o => (.ok o, s)

/-- Drive several `step` calls, recording each call's `terminated` flag;
`none` as soon as one call raises. -/
def runEpisode (e : Env) (s : EnvState) :
    List (Int × List ℚ) → Option (List Bool × EnvState)
  | [] => some ([], s)
  | (a, nz) :: rest =>
    match stepFull e s a nz with
    | (.error _, _) => none
    | (.ok out, s') =>
      match runEpisode e s' rest with
      | none => none
      | some pr => some (out.terminated :: pr.1, pr.2)

/-- `true` exactly on a successful (`ok`) call result. -/
def exceptOk {ε α : Type _} : Except ε α → Bool
  | .ok _ => true
  | .error _ => false

instance exceptDecEq {ε α : Type _} [DecidableEq ε] [DecidableEq α] :
    DecidableEq (Except ε α) := fun x y =>
  match x, y with
  | .ok a, .ok b =>
    if h : a = b then isTrue (by rw [h]) else isFalse (by intro hc; cases hc; exact h rfl)
  | .error a, .error b =>
    if h : a = b then isTrue (by rw [h]) else isFalse (by intro hc; cases hc; exact h rfl)
  | .ok _, .error _ => isFalse (by intro hc; cases hc)
  | .error _, .ok _ => isFalse (by intro hc; cases hc)

/-! ## Concrete fixtures (used to instantiate theorems with hypotheses)

A 3-car, 2-track, 1-upgrade configuration: the agent is `Car 01`; on
`Track 01` (Sunny, 50 laps, `30 Core Power`) the upgrade (condition `Sunny`)
applies, giving the agent effective core 350 and effective max laps 60, while
`Car 03` (max laps 40) DNFs. -/

def exTrack1 : Track := ⟨"Track 01", 50, "Sunny", "30 Core Power"⟩

def exTracks : List Track :=
  [exTrack1, ⟨"Track 02", 60, "Night", "20 Max Laps"⟩]

def exCars : List Car :=
  [⟨"Car 01", 300, 50, "Sunny"⟩, ⟨"Car 02", 320, 50, "-"⟩, ⟨"Car 03", 280, 40, "Night"⟩]

def exUpgrades : List Upgrade := [⟨"Upgrade 01", 20, 10, "Sunny"⟩]

/-- The environment `mkEnv exTracks exCars (some exUpgrades) 0 none false`
builds (checked by the `mkEnv_ex` example below). -/
def exEnv : Env :=
  { tracks := exTracks, cars := exCars, agent_car_id := 0,
    agent_car := ⟨"Car 01", 300, 50, "Sunny"⟩,
    opponents := [⟨"Car 02", 320, 50, "-"⟩, ⟨"Car 03", 280, 40, "Night"⟩],
    points_by_position := [25, 18, 15, 12, 10, 8, 6, 4, 2, 1],
    actions_catalog := build_actions (some exUpgrades),
    TRACK_TYPES := ["Night", "Sunny"], shuffle_tracks_each_reset := false }

/-- A 3-car, 1-track configuration with the short custom points table `[10, 5]`,
which the constructor pads to `[10, 5, 0]`. -/
def c4Cars : List Car :=
  [⟨"Car 01", 5, 50, "-"⟩, ⟨"Car 02", 4, 50, "-"⟩, ⟨"Car 03", 3, 50, "-"⟩]

def c4Track : Track := ⟨"T1", 50, "Sunny", "30 Core Power"⟩

/-- What `mkEnv [c4Track] c4Cars none 0 (some [10, 5]) false` builds. -/
def c4Env : Env :=
  { tracks := [c4Track], cars := c4Cars, agent_car_id := 0,
    agent_car := ⟨"Car 01", 5, 50, "-"⟩,
    opponents := [⟨"Car 02", 4, 50, "-"⟩, ⟨"Car 03", 3, 50, "-"⟩],
    points_by_position := [10, 5, 0],
    actions_catalog := [noUpgradeAction],
    TRACK_TYPES := ["Sunny"], shuffle_tracks_each_reset := false }

/-! ## Ranking lemmas -/

theorem sortKey_fst (core noise : List ℚ) (dnf : List Bool) (i : Nat) :
    (sortKey core noise dnf i).1 = pyBoolVal (dnf.getD i false) := rfl

theorem sortKey_snd (core noise : List ℚ) (dnf : List Bool) (i : Nat) :
    (sortKey core noise dnf i).2 = -(core.getD i 0 + noise.getD i 0) := rfl

theorem sortKey_fst_false (core noise : List ℚ) (dnf : List Bool) (i : Nat)
    (h : dnf.getD i false = false) : (sortKey core noise dnf i).1 = 0 := by
  rw [sortKey_fst, h]
  rfl

theorem sortKey_fst_true (core noise : List ℚ) (dnf : List Bool) (i : Nat)
    (h : dnf.getD i false = true) : (sortKey core noise dnf i).1 = 1 := by
  rw [sortKey_fst, h]
  rfl

theorem keyLe_refl (core noise : List ℚ) (dnf : List Bool) (i : Nat) :
    keyLe core noise dnf i i :=
  Or.inr ⟨rfl, le_refl _⟩

theorem keyLe_total (core noise : List ℚ) (dnf : List Bool) (i j : Nat) :
    keyLe core noise dnf i j ∨ keyLe core noise dnf j i := by
  rcases Nat.lt_trichotomy (sortKey core noise dnf i).1 (sortKey core noise dnf j).1 with h | h | h
  · exact Or.inl (Or.inl h)
  · rcases le_total (sortKey core noise dnf i).2 (sortKey core noise dnf j).2 with h2 | h2
    · exact Or.inl (Or.inr ⟨h, h2⟩)
    · exact Or.inr (Or.inr ⟨h.symm, h2⟩)
  · exact Or.inr (Or.inl h)

theorem keyLe_trans (core noise : List ℚ) (dnf : List Bool) (i j k : Nat)
    (hij : keyLe core noise dnf i j) (hjk : keyLe core noise dnf j k) :
    keyLe core noise dnf i k := by
  rcases hij with h1 | ⟨h1, h1b⟩ <;> rcases hjk with h2 | ⟨h2, h2b⟩
  · exact Or.inl (h1.trans h2)
  · exact Or.inl (lt_of_lt_of_le h1 (le_of_eq h2))
  · exact Or.inl (lt_of_le_of_lt (le_of_eq h1) h2)
  · exact Or.inr ⟨h1.trans h2, le_trans h1b h2b⟩

theorem rankOrder_perm (core : List ℚ) (dnf : List Bool) (noise : List ℚ) :
    List.Perm (rankOrder core dnf noise) (List.range core.length) :=
  List.perm_insertionSort _ _

theorem rankOrder_sorted (core : List ℚ) (dnf : List Bool) (noise : List ℚ) :
    List.Sorted (keyLe core noise dnf) (rankOrder core dnf noise) := by
  haveI : IsTotal Nat (keyLe core noise dnf) := ⟨keyLe_total core noise dnf⟩
  haveI : IsTrans Nat (keyLe core noise dnf) := ⟨keyLe_trans core noise dnf⟩
  exact List.sorted_insertionSort _ _

theorem rankOrder_length (core : List ℚ) (dnf : List Bool) (noise : List ℚ) :
    (rankOrder core dnf noise).length = core.length := by
  simpa using (rankOrder_perm core dnf noise).length_eq

theorem mem_rankOrder (core : List ℚ) (dnf : List Bool) (noise : List ℚ)
    {i : Nat} (h : i < core.length) : i ∈ rankOrder core dnf noise := by
  rw [(rankOrder_perm core dnf noise).mem_iff]
  exact List.mem_range.mpr h

/-- A competitor whose sort key is strictly below another's is placed strictly
earlier by the (stable) sort, whatever noise was drawn. -/
theorem racePosition_lt_of_keyLt (core : List ℚ) (dnf : List Bool) (noise : List ℚ)
    {i j : Nat} (hi : i < core.length) (hj : j < core.length)
    (hij : keyLe core noise dnf i j) (hji : ¬ keyLe core noise dnf j i) :
    racePosition core dnf noise i < racePosition core dnf noise j := by
  unfold racePosition
  have hmi : i ∈ rankOrder core dnf noise := mem_rankOrder core dnf noise hi
  have hmj : j ∈ rankOrder core dnf noise := mem_rankOrder core dnf noise hj
  have hpi : (rankOrder core dnf noise).indexOf i < (rankOrder core dnf noise).length :=
    List.indexOf_lt_length.mpr hmi
  have hpj : (rankOrder core dnf noise).indexOf j < (rankOrder core dnf noise).length :=
    List.indexOf_lt_length.mpr hmj
  have hgi := List.indexOf_get hpi
  have hgj := List.indexOf_get hpj
  have hne : (rankOrder core dnf noise).indexOf i ≠ (rankOrder core dnf noise).indexOf j := by
    intro heq
    apply hji
    have : i = j := by
      rw [← hgi, ← hgj]
      exact congrArg _ (Fin.ext heq)
    subst this
    exact hij
  rcases Nat.lt_or_ge ((rankOrder core dnf noise).indexOf i)
      ((rankOrder core dnf noise).indexOf j) with hlt | hge
  · exact Nat.succ_lt_succ hlt
  · exfalso
    have hlt : (⟨_, hpj⟩ : Fin (rankOrder core dnf noise).length) < ⟨_, hpi⟩ :=
      Nat.lt_of_le_of_ne hge fun hc => hne hc.symm
    have := (rankOrder_sorted core dnf noise).rel_get_of_lt hlt
    rw [hgi, hgj] at this
    exact hji this

/-! ## Structural lemmas about the environment and the step pipeline -/

theorem oppCoreEff_length (e : Env) (bc : Int) :
    (oppCoreEff e bc).length = e.opponents.length := by
  simp [oppCoreEff]

theorem gridCore_length (e : Env) (tr : Track) (a : Nat) :
    (gridCore e tr a).length = e.opponents.length + 1 := by
  simp [gridCore, oppCoreEff]

theorem gridMaxLaps_length (e : Env) (tr : Track) (a : Nat) :
    (gridMaxLaps e tr a).length = e.opponents.length + 1 := by
  simp [gridMaxLaps, oppMaxEff]

theorem gridDnf_length (e : Env) (tr : Track) (a : Nat) :
    (gridDnf e tr a).length = e.opponents.length + 1 := by
  simp [gridDnf, oppDnf, oppMaxEff]

/-- What `__init__` guarantees about the record it builds. -/
theorem mkEnv_inv (tracks : List Track) (cars : List Car) (upg : Option (List Upgrade))
    (aid : Nat) (ptsIn : Option (List Int)) (shuf : Bool) (e : Env)
    (he : mkEnv tracks cars upg aid ptsIn shuf = some e) :
    e.tracks = tracks ∧ e.cars = cars ∧
    e.opponents.length + 1 = cars.length ∧
    e.actions_catalog = build_actions upg ∧
    cars.length ≤ e.points_by_position.length := by
  unfold mkEnv at he
  by_cases h : aid < cars.length
  · rw [dif_pos h] at he
    cases he
    refine ⟨rfl, rfl, ?_, rfl, ?_⟩
    · simp only [List.length_eraseIdx, if_pos h]
      omega
    · simp only [List.length_append, List.length_replicate]
      omega
  · rw [dif_neg h] at he
    cases he

theorem racePosition_pos (core : List ℚ) (dnf : List Bool) (noise : List ℚ) (agent : Nat) :
    1 ≤ racePosition core dnf noise agent :=
  Nat.succ_le_succ (Nat.zero_le _)

theorem racePosition_le_length (core : List ℚ) (dnf : List Bool) (noise : List ℚ)
    (agent : Nat) (hagent : agent < core.length) :
    racePosition core dnf noise agent ≤ core.length := by
  unfold racePosition
  have hm := mem_rankOrder core dnf noise hagent
  have h := List.indexOf_lt_length.mpr hm
  rw [rankOrder_length] at h
  omega

/-- The points lookup succeeds whenever the subject is on the grid and the
points table is at least as long as the grid. -/
theorem rank_and_points_isSome (pts : List Int) (core : List ℚ) (dnf : List Bool)
    (noise : List ℚ) (agent : Nat)
    (hagent : agent < core.length) (hlen : core.length ≤ pts.length) :
    ∃ pr, rank_and_points pts core dnf noise agent = some pr := by
  by_cases hd : dnf.getD agent false
  · rw [List.getD_eq_getElem?_getD] at hd
    exact ⟨(racePosition core dnf noise agent, 0), by simp [rank_and_points, hd]⟩
  · have h1 := racePosition_pos core dnf noise agent
    have h2 := racePosition_le_length core dnf noise agent hagent
    have hpos : racePosition core dnf noise agent - 1 < pts.length := by omega
    rw [List.getD_eq_getElem?_getD] at hd
    refine ⟨(racePosition core dnf noise agent,
      pts.getD (racePosition core dnf noise agent - 1) 0), ?_⟩
    simp [rank_and_points, hd, List.get?_eq_getElem?, List.getElem?_eq_getElem hpos,
      List.getD_eq_getElem _ _ hpos]

/-- A `step` with a valid action and an in-range cursor succeeds, keeps the
track list, advances the cursor by one, and reports termination exactly when
the advanced cursor has exhausted the sequence. -/
theorem stepFull_ok (e : Env) (s : EnvState) (action : Int) (noise : List ℚ)
    (hpts : e.opponents.length + 1 ≤ e.points_by_position.length)
    (hidx : s.track_idx < s.tracks.length)
    (ha1 : 0 ≤ action) (ha2 : action < (e.n_actions : Int)) :
    exceptOk (stepFull e s action noise).1 = true ∧
    (stepFull e s action noise).2.tracks = s.tracks ∧
    (stepFull e s action noise).2.track_idx = s.track_idx + 1 ∧
    (∀ out, (stepFull e s action noise).1 = .ok out →
      out.terminated = decide (s.tracks.length ≤ s.track_idx + 1)) := by
  obtain ⟨tr, htr⟩ : ∃ tr, track_row s = some tr := by
    unfold track_row
    exact ⟨_, by rw [List.get?_eq_getElem?, List.getElem?_eq_getElem hidx]⟩
  have hagent : (gridCore e tr action.toNat).length - 1 < (gridCore e tr action.toNat).length := by
    rw [gridCore_length]; omega
  have hlen : (gridCore e tr action.toNat).length ≤ e.points_by_position.length := by
    rw [gridCore_length]; exact hpts
  obtain ⟨pr, hpr⟩ := rank_and_points_isSome e.points_by_position (gridCore e tr action.toNat)
    (gridDnf e tr action.toNat) noise ((gridCore e tr action.toNat).length - 1) hagent hlen
  have hcond : 0 ≤ action ∧ action < (e.n_actions : Int) := ⟨ha1, ha2⟩
  simp only [stepFull, stepOnTrack, hcond, not_true_eq_false, if_false, htr, hpr]
  refine ⟨rfl, rfl, rfl, ?_⟩
  intro out hout
  cases hout
  rfl

theorem getD_append_left_of_lt {α : Type _} (l l2 : List α) (d : α) (k : Nat)
    (h : k < l.length) : (l ++ l2).getD k d = l.getD k d :=
  List.getD_append l l2 d k h

theorem getD_concat_self {α : Type _} (l : List α) (x : α) (d : α) :
    (l ++ [x]).getD l.length d = x := by
  rw [List.getD_append_right _ _ _ _ (le_refl _)]
  simp

/-! ## The claims -/

/-- C1: on every step, every competitor's effective core power equals its base
core power plus the track's parsed core bonus and its effective max laps equals
its base max laps plus the track's parsed max-laps bonus; additionally only the
agent (the last grid entry) receives the chosen action's bonuses, and only when
that action's eligibility condition set is empty or contains the current
track's type — opponents' grid entries never depend on the chosen action
index. -/
theorem effective_stats_rule (e : Env) (tr : Track) (a : Nat)
    (ha : a < e.actions_catalog.length) :
    (∀ k, k < e.opponents.length →
      (gridCore e tr a).getD k 0 =
        (e.opponents.map Car.corePower).getD k 0 + ((parse_type_bonus tr.typeBonus).1 : ℚ) ∧
      (gridMaxLaps e tr a).getD k 0 =
        (e.opponents.map Car.maxLaps).getD k 0 + (parse_type_bonus tr.typeBonus).2) ∧
    (gridCore e tr a).getD e.opponents.length 0 =
      e.agent_car.corePower + ((parse_type_bonus tr.typeBonus).1 : ℚ) +
        (if (e.actions_catalog.get ⟨a, ha⟩).cond = [] ∨
            tr.trackType ∈ (e.actions_catalog.get ⟨a, ha⟩).cond
          then (e.actions_catalog.get ⟨a, ha⟩).add_core else 0) ∧
    (gridMaxLaps e tr a).getD e.opponents.length 0 =
      e.agent_car.maxLaps + (parse_type_bonus tr.typeBonus).2 +
        (if (e.actions_catalog.get ⟨a, ha⟩).cond = [] ∨
            tr.trackType ∈ (e.actions_catalog.get ⟨a, ha⟩).cond
          then (e.actions_catalog.get ⟨a, ha⟩).add_max else 0) := by
  have hcat : e.actions_catalog.getD a noUpgradeAction = e.actions_catalog.get ⟨a, ha⟩ := by
    rw [List.getD_eq_getElem _ _ ha, List.get_eq_getElem]
  have happly : upgrade_applies_on_track e.actions_catalog a tr.trackType = true ↔
      ((e.actions_catalog.get ⟨a, ha⟩).cond = [] ∨
        tr.trackType ∈ (e.actions_catalog.get ⟨a, ha⟩).cond) := by
    simp only [upgrade_applies_on_track]
    rw [hcat]
    simp [List.isEmpty_iff]
  have hagent_core : (gridCore e tr a).getD e.opponents.length 0 =
      (agentEffective e tr.trackType (parse_type_bonus tr.typeBonus).1
        (parse_type_bonus tr.typeBonus).2 a).1 := by
    simp only [gridCore]
    rw [show e.opponents.length = (oppCoreEff e (parse_type_bonus tr.typeBonus).1).length from
      (oppCoreEff_length e _).symm]
    exact getD_concat_self _ _ _
  have hagent_max : (gridMaxLaps e tr a).getD e.opponents.length 0 =
      (agentEffective e tr.trackType (parse_type_bonus tr.typeBonus).1
        (parse_type_bonus tr.typeBonus).2 a).2 := by
    simp only [gridMaxLaps]
    rw [show e.opponents.length = (oppMaxEff e (parse_type_bonus tr.typeBonus).2).length from
      (by simp [oppMaxEff])]
    exact getD_concat_self _ _ _
  refine ⟨?_, ?_, ?_⟩
  · intro k hk
    have hk1 : k < (oppCoreEff e (parse_type_bonus tr.typeBonus).1).length := by
      rw [oppCoreEff_length]; exact hk
    have hk2 : k < (oppMaxEff e (parse_type_bonus tr.typeBonus).2).length := by
      simp only [oppMaxEff, List.length_map]; exact hk
    constructor
    · simp only [gridCore]
      rw [getD_append_left_of_lt _ _ _ _ hk1, List.getD_eq_getElem _ _ hk1,
        List.getD_eq_getElem _ _ (by simpa using hk)]
      simp [oppCoreEff]
    · simp only [gridMaxLaps]
      rw [getD_append_left_of_lt _ _ _ _ hk2, List.getD_eq_getElem _ _ hk2,
        List.getD_eq_getElem _ _ (by simpa using hk)]
      simp [oppMaxEff]
  · rw [hagent_core]
    by_cases happ : (e.actions_catalog.get ⟨a, ha⟩).cond = [] ∨
        tr.trackType ∈ (e.actions_catalog.get ⟨a, ha⟩).cond
    · have hb := happly.mpr happ
      simp only [agentEffective, effective_stats_for_car, hb, if_true, hcat, if_pos happ]
    · have hb : upgrade_applies_on_track e.actions_catalog a tr.trackType = false := by
        rcases Bool.eq_false_or_eq_true (upgrade_applies_on_track e.actions_catalog a
          tr.trackType) with h | h
        · exact absurd (happly.mp h) happ
        · exact h
      simp only [agentEffective, effective_stats_for_car, hb, Bool.false_eq_true, if_false,
        if_neg happ, add_zero]
  · rw [hagent_max]
    by_cases happ : (e.actions_catalog.get ⟨a, ha⟩).cond = [] ∨
        tr.trackType ∈ (e.actions_catalog.get ⟨a, ha⟩).cond
    · have hb := happly.mpr happ
      simp only [agentEffective, effective_stats_for_car, hb, if_true, hcat, if_pos happ]
    · have hb : upgrade_applies_on_track e.actions_catalog a tr.trackType = false := by
        rcases Bool.eq_false_or_eq_true (upgrade_applies_on_track e.actions_catalog a
          tr.trackType) with h | h
        · exact absurd (happly.mp h) happ
        · exact h
      simp only [agentEffective, effective_stats_for_car, hb, Bool.false_eq_true, if_false,
        if_neg happ, add_zero]

/-- C2: for every competitor (agent and each opponent) on every step, the
competitor's DNF flag is set iff its effective max laps is strictly below the
current track's required laps; in particular effective max laps exactly equal
to the required laps is not a DNF, and there is no other DNF condition. -/
theorem dnf_rule (e : Env) (tr : Track) (a : Nat) :
    (∀ k, k < e.opponents.length + 1 →
      ((gridDnf e tr a).getD k false = true ↔
        (gridMaxLaps e tr a).getD k 0 < tr.totalLaps)) ∧
    (∀ k, k < e.opponents.length + 1 →
      (gridMaxLaps e tr a).getD k 0 = tr.totalLaps →
      (gridDnf e tr a).getD k false = false) := by
  have key : ∀ k, k < e.opponents.length + 1 →
      (gridDnf e tr a).getD k false =
        decide ((gridMaxLaps e tr a).getD k 0 < tr.totalLaps) := by
    intro k hk
    rcases Nat.lt_or_ge k e.opponents.length with hlt | hge
    · have hk1 : k < (oppDnf e (parse_type_bonus tr.typeBonus).2 tr.totalLaps).length := by
        simp only [oppDnf, oppMaxEff, List.length_map]; exact hlt
      have hk2 : k < (oppMaxEff e (parse_type_bonus tr.typeBonus).2).length := by
        simp only [oppMaxEff, List.length_map]; exact hlt
      simp only [gridDnf, gridMaxLaps]
      simp only [getD_append_left_of_lt _ _ _ _ hk1, getD_append_left_of_lt _ _ _ _ hk2,
        List.getD_eq_getElem _ _ hk1, List.getD_eq_getElem _ _ hk2]
      simp [oppDnf]
    · have hke : k = e.opponents.length := by omega
      subst hke
      have h1 : (gridDnf e tr a).getD e.opponents.length false =
          decide ((agentEffective e tr.trackType (parse_type_bonus tr.typeBonus).1
            (parse_type_bonus tr.typeBonus).2 a).2 < tr.totalLaps) := by
        simp only [gridDnf]
        rw [show e.opponents.length =
          (oppDnf e (parse_type_bonus tr.typeBonus).2 tr.totalLaps).length from
          (by simp [oppDnf, oppMaxEff])]
        exact getD_concat_self _ _ _
      have h2 : (gridMaxLaps e tr a).getD e.opponents.length 0 =
          (agentEffective e tr.trackType (parse_type_bonus tr.typeBonus).1
            (parse_type_bonus tr.typeBonus).2 a).2 := by
        simp only [gridMaxLaps]
        rw [show e.opponents.length = (oppMaxEff e (parse_type_bonus tr.typeBonus).2).length from
          (by simp [oppMaxEff])]
        exact getD_concat_self _ _ _
      simp only [h1, h2]
  constructor
  · intro k hk
    rw [key k hk]
    exact decide_eq_true_iff
  · intro k hk he
    rw [key k hk]
    simp only [he]
    simp

/-- C3: every DNF competitor is placed strictly below (numerically larger
position than) every non-DNF competitor by the race resolver, whatever the
effective core powers and whatever noise the tie-break perturbation drew. -/
theorem dnf_ranked_strictly_below (core : List ℚ) (dnf : List Bool) (noise : List ℚ)
    (i j : Nat) (hi : i < core.length) (hj : j < core.length)
    (hdi : dnf.getD i false = false) (hdj : dnf.getD j false = true) :
    racePosition core dnf noise i < racePosition core dnf noise j := by
  apply racePosition_lt_of_keyLt core dnf noise hi hj
  · refine Or.inl ?_
    rw [sortKey_fst_false core noise dnf i hdi, sortKey_fst_true core noise dnf j hdj]
    exact Nat.zero_lt_one
  · intro h
    rcases h with h | ⟨h, _⟩
    · rw [sortKey_fst_false core noise dnf i hdi, sortKey_fst_true core noise dnf j hdj] at h
      exact Nat.not_lt_zero 1 h
    · rw [sortKey_fst_false core noise dnf i hdi, sortKey_fst_true core noise dnf j hdj] at h
      exact Nat.one_ne_zero h

/-- C5 counterexample: the tie-break perturbation is an unbounded Gaussian, so
there are outcomes (here: noise 0 for the first competitor and 10 for the
second) under which a competitor with strictly higher effective core power
(1 > 0, both finishers) still receives the strictly worse position — the claim
quantifies over every outcome of the perturbation, so it fails. -/
theorem tie_break_can_flip_order :
    racePosition [1, 0] [false, false] [0, 10] 0 = 2 ∧
    racePosition [1, 0] [false, false] [0, 10] 1 = 1 := by
  constructor <;>
    norm_num +decide [racePosition, rankOrder, keyLe, sortKey, List.insertionSort,
      List.orderedInsert, List.range, List.range.loop]

/-- C5 amended: within a partition (equal DNF flags), the resolver orders by
perturbed core power (effective core plus that competitor's tie-break noise)
descending: whenever the drawn perturbations preserve the strict core-power
order — in particular whenever each perturbation's magnitude stays below half
the core-power gap, the regime the spec intends — the competitor with the
strictly higher effective core power receives the strictly better position. -/
theorem higher_core_better_position (core : List ℚ) (dnf : List Bool) (noise : List ℚ)
    (i j : Nat) (hi : i < core.length) (hj : j < core.length)
    (hd : dnf.getD i false = dnf.getD j false)
    (hc : core.getD j 0 + noise.getD j 0 < core.getD i 0 + noise.getD i 0) :
    racePosition core dnf noise i < racePosition core dnf noise j := by
  have hsnd : (sortKey core noise dnf i).2 < (sortKey core noise dnf j).2 := by
    rw [sortKey_snd, sortKey_snd]
    exact neg_lt_neg hc
  have hfst : (sortKey core noise dnf i).1 = (sortKey core noise dnf j).1 := by
    rw [sortKey_fst, sortKey_fst, hd]
  apply racePosition_lt_of_keyLt core dnf noise hi hj
  · exact Or.inr ⟨hfst, le_of_lt hsnd⟩
  · intro h
    rcases h with h | ⟨_, h2⟩
    · rw [hfst] at h
      exact lt_irrefl _ h
    · exact absurd hsnd (not_lt.mpr h2)

theorem get_obs_isSome (e : Env) (s : EnvState) (h : s.track_idx < s.tracks.length) :
    ∃ o, get_obs e s = some o := by
  have htr : track_row s = some (s.tracks.get ⟨s.track_idx, h⟩) := by
    unfold track_row
    rw [List.get?_eq_getElem?, List.getElem?_eq_getElem h]
    rfl
  unfold get_obs
  rw [htr]
  exact ⟨_, rfl⟩

theorem get_obs_none (e : Env) (s : EnvState) (h : s.tracks.length ≤ s.track_idx) :
    get_obs e s = none := by
  have htr : track_row s = none := by
    unfold track_row
    rw [List.get?_eq_getElem?, List.getElem?_eq_none h]
  simp only [get_obs, htr]

theorem resetFull_snd (e : Env) (shuffled : List Track) :
    (resetFull e shuffled).2 =
      ⟨if e.shuffle_tracks_each_reset then shuffled else e.tracks, 0, 0⟩ := by
  simp only [resetFull]
  rcases get_obs e ⟨if e.shuffle_tracks_each_reset then shuffled else e.tracks, 0, 0⟩ with
    _ | o <;> rfl

/-- C4 amended: the agent's points on a step are 0 whenever its DNF flag is set
(whatever the position) and otherwise are the points-table entry at its 1-based
position; a *non-empty* supplied points table shorter than the number of cars
is zero-padded at construction (never truncated), so positions beyond the
original table's length award 0.  (An empty supplied table is falsy in Python,
so `points_by_position or DEFAULT` replaces it by the 10-entry default before
padding — the zero-padding guarantee therefore holds only for non-empty
supplied tables; see the counterexample.) -/
theorem points_rule (tracks : List Track) (cars : List Car) (upg : Option (List Upgrade))
    (aid : Nat) (ptsIn : List Int) (shuf : Bool) (e : Env)
    (hne : ptsIn ≠ [])
    (he : mkEnv tracks cars upg aid (some ptsIn) shuf = some e)
    (grid_core : List ℚ) (grid_dnf : List Bool) (noise : List ℚ) (agent : Nat)
    (pos : Nat) (pts : Int)
    (hr : rank_and_points e.points_by_position grid_core grid_dnf noise agent =
      some (pos, pts)) :
    e.points_by_position = ptsIn ++ List.replicate (cars.length - ptsIn.length) 0 ∧
    (grid_dnf.getD agent false = true → pts = 0) ∧
    (grid_dnf.getD agent false = false →
      pts = e.points_by_position.getD (pos - 1) 0) ∧
    (grid_dnf.getD agent false = false → ptsIn.length < pos → pts = 0) := by
  have hempty : ptsIn.isEmpty = false := by
    cases ptsIn
    · exact absurd rfl hne
    · rfl
  have htable : e.points_by_position = ptsIn ++ List.replicate (cars.length - ptsIn.length) 0 := by
    unfold mkEnv at he
    by_cases h : aid < cars.length
    · rw [dif_pos h] at he
      cases he
      simp [hempty]
    · rw [dif_neg h] at he
      cases he
  by_cases hd : grid_dnf.getD agent false
  · have hpts0 : pts = 0 := by
      simp only [rank_and_points, hd, if_true, Option.some.injEq, Prod.mk.injEq] at hr
      exact hr.2.symm
    exact ⟨htable, fun _ => hpts0,
      fun hf => absurd (hf ▸ hd) (by simp),
      fun hf _ => absurd (hf ▸ hd) (by simp)⟩
  · rw [Bool.not_eq_true] at hd
    simp only [rank_and_points, hd, Bool.false_eq_true, if_false, List.get?_eq_getElem?,
      Option.map_eq_some'] at hr
    obtain ⟨p, hget, heq⟩ := hr
    injection heq with hpos hp
    rw [hpos] at hget
    have hlt : pos - 1 < e.points_by_position.length := by
      rcases Nat.lt_or_ge (pos - 1) e.points_by_position.length with h | h
      · exact h
      · rw [List.getElem?_eq_none h] at hget
        cases hget
    have hval : e.points_by_position.getD (pos - 1) 0 = pts := by
      rw [List.getD_eq_getElem _ _ hlt]
      rw [List.getElem?_eq_getElem hlt] at hget
      injection hget with hget2
      rw [hget2]
      exact hp
    refine ⟨htable, fun hcon => absurd (hd ▸ hcon) (by simp), fun _ => hval.symm, ?_⟩
    intro _ hbeyond
    rw [← hval, List.getD_eq_getElem _ _ hlt]
    have hge : ptsIn.length ≤ pos - 1 := by omega
    have hlt2 : pos - 1 < (ptsIn ++ List.replicate (cars.length - ptsIn.length) 0).length := by
      rw [← htable]
      exact hlt
    have : (ptsIn ++ List.replicate (cars.length - ptsIn.length) 0).getD (pos - 1) 0 = 0 := by
      rw [List.getD_eq_getElem _ _ hlt2, List.getElem_append_right
        (by simpa using hge), List.getElem_replicate]
    rw [← List.getD_eq_getElem]
    rw [htable]
    rw [this]

/-- C4 counterexample: with the explicitly supplied *empty* points table and a
single car, zero-padding the supplied table would construct `[0]`, and position
1 — which is beyond the original table's length 0 — would award 0 points; the
code instead replaces the empty table by the 10-entry default, and a finishing
agent at position 1 is awarded 25 points. -/
theorem empty_points_table_not_padded :
    (mkEnv [c4Track] [⟨"Car 01", 300, 50, "Sunny"⟩] none 0 (some []) false).map
        Env.points_by_position = some DEFAULT_POINTS_BY_POSITION ∧
    DEFAULT_POINTS_BY_POSITION ≠ [0] ∧
    rank_and_points DEFAULT_POINTS_BY_POSITION [330] [false] [0] 0 = some (1, 25) := by
  refine ⟨by decide, by decide, ?_⟩
  norm_num +decide [rank_and_points, racePosition, rankOrder, keyLe, sortKey, pyBoolVal,
    List.insertionSort, List.orderedInsert, List.range, List.range.loop,
    DEFAULT_POINTS_BY_POSITION]

/-- C8 amended: the type-bonus parser maps a cell whose first whitespace token
parses as an integer to `(value, 0)` when the literal token `"Core"` occurs
among the remaining tokens, else to `(0, value)` when `"Max"` does, else to
`(0, 0)`; a cell with no tokens, or whose first token is not an integer,
degrades to `(0, 0)` without failing.  In particular cells matching the grammar
`<integer> <"Core"|"Max"> <"Power"|"Laps">` map as the claim states, but the
third word is never inspected, so some cells outside the grammar (e.g.
`"30 Core"`) also map to a non-zero pair — see the counterexample. -/
theorem parse_type_bonus_rule (cell : String) (numTok : String) (rest : List String)
    (v : Int) (hsplit : pyTokens cell = numTok :: rest) (hv : pyToInt numTok = some v) :
    parse_type_bonus cell =
      (if "Core" ∈ rest then (v, 0) else if "Max" ∈ rest then (0, v) else (0, 0)) ∧
    (∀ (c2 t2 : String) (r2 : List String), pyTokens c2 = t2 :: r2 → pyToInt t2 = none →
      parse_type_bonus c2 = (0, 0)) ∧
    (∀ c3 : String, pyTokens c3 = [] → parse_type_bonus c3 = (0, 0)) := by
  refine ⟨?_, ?_, ?_⟩
  · simp only [parse_type_bonus, hsplit, hv]
  · intro c2 t2 r2 hs2 hn2
    simp only [parse_type_bonus, hs2, hn2]
  · intro c3 hs3
    simp only [parse_type_bonus, hs3]

/-- C8 counterexample: the cell `"30 Core"` does not match the grammar
`<integer> <"Core"|"Max"> <"Power"|"Laps">` (there is no third word), yet the
parser returns `(30, 0)` instead of degrading to the zero pair. -/
theorem malformed_bonus_cell_not_zero :
    parse_type_bonus "30 Core" = (30, 0) ∧ ((30, 0) : Int × Int) ≠ (0, 0) := by decide

/-- C9 amended: `reset` always sets the cursor to 0 and the accumulated return
to 0 (these mutations precede the observation computation); when the track
sequence is non-empty it returns an observation snapshot for the first track
(the in-progress regime).  With an *empty* track sequence it does not
transition to a terminal state: computing the observation raises the internal
cursor-out-of-bounds error — see the counterexample. -/
theorem reset_rule (e : Env) (shuffled : List Track)
    (hs : shuffled.length = e.tracks.length) :
    (resetFull e shuffled).2.track_idx = 0 ∧
    (resetFull e shuffled).2.total_reward = 0 ∧
    (1 ≤ e.tracks.length → ∃ o, (resetFull e shuffled).1 = .ok o) ∧
    (e.tracks.length = 0 → (resetFull e shuffled).1 = .error .cursorError) := by
  have htiu : (if e.shuffle_tracks_each_reset then shuffled else e.tracks).length =
      e.tracks.length := by
    by_cases h : e.shuffle_tracks_each_reset <;> simp [h, hs]
  refine ⟨by rw [resetFull_snd], by rw [resetFull_snd], ?_, ?_⟩
  · intro hlen
    obtain ⟨o, ho⟩ := get_obs_isSome e
      ⟨if e.shuffle_tracks_each_reset then shuffled else e.tracks, 0, 0⟩
      (by simpa [htiu] using hlen)
    refine ⟨o, ?_⟩
    simp only [resetFull, ho]
  · intro hlen
    have hnone := get_obs_none e
      ⟨if e.shuffle_tracks_each_reset then shuffled else e.tracks, 0, 0⟩
      (by simp [htiu, hlen])
    simp only [resetFull, hnone]

/-- C9 counterexample: with an empty track sequence the constructor succeeds,
but `reset` raises the internal cursor error instead of always succeeding. -/
theorem reset_fails_on_empty_tracks :
    ((mkEnv [] [⟨"Car 01", 300, 50, "Sunny"⟩] none 0 none false).map
      fun e => (resetFull e []).1) = some (.error .cursorError) := by decide

/-- A valid action never yields the action-range error, whatever else
happens. -/
theorem stepFull_valid_not_actionError (e : Env) (s : EnvState) (action : Int)
    (noise : List ℚ) (hval : 0 ≤ action ∧ action < (e.n_actions : Int)) :
    (stepFull e s action noise).1 ≠ .error .actionError := by
  simp only [stepFull, hval, not_true_eq_false, if_false]
  rcases htr : track_row s with _ | tr
  · show Except.error StepErr.cursorError ≠ Except.error StepErr.actionError
    decide
  · simp only [stepOnTrack]
    rcases hpr : rank_and_points e.points_by_position (gridCore e tr action.toNat)
        (gridDnf e tr action.toNat) noise ((gridCore e tr action.toNat).length - 1) with _ | pr
    · show Except.error StepErr.indexError ≠ Except.error StepErr.actionError
      decide
    · intro hc
      exact Except.noConfusion hc

/-- Driving the remaining races from any in-progress cursor: every step
succeeds, the flags record termination exactly at the last race, and the state
ends with the cursor at the sequence length. -/
theorem runEpisode_ok (e : Env)
    (hpts : e.opponents.length + 1 ≤ e.points_by_position.length)
    (acts : List (Int × List ℚ)) :
    ∀ s : EnvState,
      (∀ p, p ∈ acts → 0 ≤ p.1 ∧ p.1 < (e.n_actions : Int)) →
      s.track_idx + acts.length = s.tracks.length →
      ∃ flags sN, runEpisode e s acts = some (flags, sN) ∧
        flags.length = acts.length ∧
        (∀ m, ∀ hm : m < flags.length,
          flags.get ⟨m, hm⟩ = decide (s.track_idx + m + 1 = s.tracks.length)) ∧
        sN.track_idx = s.tracks.length ∧ sN.tracks = s.tracks := by
  induction acts with
  | nil =>
    intro s _ hlen
    refine ⟨[], s, rfl, rfl, ?_, ?_, rfl⟩
    · intro m hm
      exact absurd hm (Nat.not_lt_zero m)
    · simpa using hlen
  | cons p rest ih =>
    intro s hval hlen
    have hidx : s.track_idx < s.tracks.length := by
      simp only [List.length_cons] at hlen
      omega
    have hv := hval p (List.mem_cons_self p rest)
    obtain ⟨hok, htracks, hidx2, hterm⟩ := stepFull_ok e s p.1 p.2 hpts hidx hv.1 hv.2
    rcases hst : stepFull e s p.1 p.2 with ⟨r, s2⟩
    rw [hst] at hok htracks hidx2 hterm
    dsimp only at hok htracks hidx2 hterm
    cases r with
    | error err => simp [exceptOk] at hok
    | ok out =>
      obtain ⟨flags, sN, hrun, hflen, hfget, hNidx, hNtracks⟩ :=
        ih s2 (fun q hq => hval q (List.mem_cons_of_mem p hq))
          (by
            simp only [List.length_cons] at hlen
            rw [hidx2, htracks]
            omega)
      have hterm2 := hterm out rfl
      refine ⟨out.terminated :: flags, sN, ?_, ?_, ?_, ?_, ?_⟩
      · simp only [runEpisode, hst, hrun]
      · simp [hflen]
      · intro m hm
        cases m with
        | zero =>
          simp only [List.get]
          rw [hterm2]
          refine decide_eq_decide.mpr ?_
          omega
        | succ m2 =>
          have hm2 : m2 < flags.length := by
            simpa using hm
          simp only [List.get]
          rw [hfget m2 hm2, hidx2, htracks]
          refine decide_eq_decide.mpr ?_
          omega
      · rw [hNidx, htracks]
      · rw [hNtracks, htracks]

/-- C6: for an environment built by the constructor whose track sequence has
N ≥ 1 tracks, exactly N `step` calls with valid actions succeed after
`reset()`: the `terminated` flag is false on the first N-1 calls and true
exactly on the N-th, and any further `step` call with a valid action fails
with the cursor error rather than silently simulating an (N+1)-th race. -/
theorem episode_length_rule (tracks : List Track) (cars : List Car)
    (upg : Option (List Upgrade)) (aid : Nat) (ptsIn : Option (List Int)) (shuf : Bool)
    (e : Env) (he : mkEnv tracks cars upg aid ptsIn shuf = some e)
    (shuffled : List Track) (hs : shuffled.length = e.tracks.length)
    (hN : 1 ≤ e.tracks.length)
    (acts : List (Int × List ℚ)) (hlen : acts.length = e.tracks.length)
    (hval : ∀ p, p ∈ acts → 0 ≤ p.1 ∧ p.1 < (e.n_actions : Int)) :
    ∃ flags sN, runEpisode e (resetFull e shuffled).2 acts = some (flags, sN) ∧
      flags.length = e.tracks.length ∧
      (∀ m, ∀ hm : m < flags.length,
        flags.get ⟨m, hm⟩ = decide (m + 1 = e.tracks.length)) ∧
      (∀ (a2 : Int) (nz : List ℚ), 0 ≤ a2 → a2 < (e.n_actions : Int) →
        (stepFull e sN a2 nz).1 = .error .cursorError) := by
  obtain ⟨-, -, hopp, -, hpts⟩ := mkEnv_inv tracks cars upg aid ptsIn shuf e he
  have hpts2 : e.opponents.length + 1 ≤ e.points_by_position.length := by omega
  have hs0 := resetFull_snd e shuffled
  have htiu : (if e.shuffle_tracks_each_reset then shuffled else e.tracks).length =
      e.tracks.length := by
    by_cases h : e.shuffle_tracks_each_reset <;> simp [h, hs]
  obtain ⟨flags, sN, hrun, hflen, hfget, hNidx, hNtracks⟩ :=
    runEpisode_ok e hpts2 acts (resetFull e shuffled).2 hval
      (by rw [hs0]; simpa [htiu] using hlen)
  refine ⟨flags, sN, hrun, by rw [hflen, hlen], ?_, ?_⟩
  · intro m hm
    rw [hfget m hm, hs0]
    refine decide_eq_decide.mpr ?_
    simp only [htiu]
    omega
  · intro a2 nz ha1 ha2
    have hcursor : sN.tracks.length ≤ sN.track_idx := by
      rw [hNidx, hNtracks]
    have hnone : track_row sN = none := by
      unfold track_row
      rw [List.get?_eq_getElem?, List.getElem?_eq_none hcursor]
    have hcond : 0 ≤ a2 ∧ a2 < (e.n_actions : Int) := ⟨ha1, ha2⟩
    simp only [stepFull, hcond, not_true_eq_false, if_false, hnone]
    rfl

/-- C7: `step` fails with the action-range error iff the action index lies
outside [0, n_actions), where n_actions is 1 plus the number of upgrade rows
(just 1 when no upgrade table was supplied); on such a failure the returned
episode state — track list in use, track cursor and accumulated return — is
exactly the pre-call state, so the caller may retry with a valid action. -/
theorem action_error_rule (tracks : List Track) (cars : List Car)
    (upg : Option (List Upgrade)) (aid : Nat) (ptsIn : Option (List Int)) (shuf : Bool)
    (e : Env) (he : mkEnv tracks cars upg aid ptsIn shuf = some e)
    (s : EnvState) (action : Int) (noise : List ℚ) :
    e.n_actions = 1 + (match upg with | none => 0 | some l => l.length) ∧
    ((stepFull e s action noise).1 = .error .actionError ↔
      ¬ (0 ≤ action ∧ action < (e.n_actions : Int))) ∧
    (¬ (0 ≤ action ∧ action < (e.n_actions : Int)) →
      (stepFull e s action noise).2 = s) := by
  obtain ⟨-, -, -, hcat, -⟩ := mkEnv_inv tracks cars upg aid ptsIn shuf e he
  refine ⟨?_, ⟨?_, ?_⟩, ?_⟩
  · rw [Env.n_actions, hcat]
    cases upg with
    | none => rfl
    | some l => simp [build_actions, Nat.add_comm]
  · intro herr
    by_cases hval : 0 ≤ action ∧ action < (e.n_actions : Int)
    · exact absurd herr (stepFull_valid_not_actionError e s action noise hval)
    · exact hval
  · intro hinv
    simp only [stepFull, if_pos hinv]
  · intro hinv
    simp only [stepFull, if_pos hinv]


/-- C10: the points lookup inside the race resolver is always in bounds on a
constructed environment: the agent's 1-based position never exceeds the number
of cars, the constructor guarantees the points table is at least that long,
and hence no `step` call — whatever the state, action index and noise draw —
can fail with the points-lookup index error. -/
theorem points_lookup_in_bounds (tracks : List Track) (cars : List Car)
    (upg : Option (List Upgrade)) (aid : Nat) (ptsIn : Option (List Int)) (shuf : Bool)
    (e : Env) (he : mkEnv tracks cars upg aid ptsIn shuf = some e) :
    (∀ (tr : Track) (a : Nat) (noise : List ℚ),
      racePosition (gridCore e tr a) (gridDnf e tr a) noise
        ((gridCore e tr a).length - 1) ≤ cars.length) ∧
    cars.length ≤ e.points_by_position.length ∧
    (∀ (s : EnvState) (action : Int) (noise : List ℚ),
      (stepFull e s action noise).1 ≠ .error .indexError) := by
  obtain ⟨-, -, hopp, -, hpts⟩ := mkEnv_inv tracks cars upg aid ptsIn shuf e he
  refine ⟨?_, hpts, ?_⟩
  · intro tr a noise
    have hlen := gridCore_length e tr a
    have hagent : (gridCore e tr a).length - 1 < (gridCore e tr a).length := by
      rw [hlen]; omega
    have := racePosition_le_length (gridCore e tr a) (gridDnf e tr a) noise
      ((gridCore e tr a).length - 1) hagent
    omega
  · intro s action noise
    by_cases hval : 0 ≤ action ∧ action < (e.n_actions : Int)
    · simp only [stepFull, hval, not_true_eq_false, if_false]
      rcases htr : track_row s with _ | tr
      · show Except.error StepErr.cursorError ≠ Except.error StepErr.indexError
        decide
      · simp only [stepOnTrack]
        have hagent : (gridCore e tr action.toNat).length - 1 <
            (gridCore e tr action.toNat).length := by
          rw [gridCore_length]; omega
        have hlen2 : (gridCore e tr action.toNat).length ≤ e.points_by_position.length := by
          rw [gridCore_length]; omega
        obtain ⟨pr, hpr⟩ := rank_and_points_isSome e.points_by_position
          (gridCore e tr action.toNat) (gridDnf e tr action.toNat) noise
          ((gridCore e tr action.toNat).length - 1) hagent hlen2
        rw [hpr]
        intro hc
        exact Except.noConfusion hc
    · simp only [stepFull, if_pos hval]
      show Except.error StepErr.actionError ≠ Except.error StepErr.indexError
      decide

/-- The example environment really is what the constructor builds. -/
theorem mkEnv_ex : mkEnv exTracks exCars (some exUpgrades) 0 none false = some exEnv := by
  decide

/-- The padded-table fixture really is what the constructor builds. -/
theorem mkEnv_c4 : mkEnv [c4Track] c4Cars none 0 (some [10, 5]) false = some c4Env := by
  decide

/-! ## Witnesses: the claim theorems instantiated at concrete inputs -/

/-- C1 witness: the claim theorem at the example environment, first track,
action index 1 (the `Sunny`-conditioned upgrade). -/
theorem effective_stats_rule_witness :
    (∀ k, k < exEnv.opponents.length →
      (gridCore exEnv exTrack1 1).getD k 0 =
        (exEnv.opponents.map Car.corePower).getD k 0 +
          ((parse_type_bonus exTrack1.typeBonus).1 : ℚ) ∧
      (gridMaxLaps exEnv exTrack1 1).getD k 0 =
        (exEnv.opponents.map Car.maxLaps).getD k 0 + (parse_type_bonus exTrack1.typeBonus).2) ∧
    (gridCore exEnv exTrack1 1).getD exEnv.opponents.length 0 =
      exEnv.agent_car.corePower + ((parse_type_bonus exTrack1.typeBonus).1 : ℚ) +
        (if (exEnv.actions_catalog.get ⟨1, by decide⟩).cond = [] ∨
            exTrack1.trackType ∈ (exEnv.actions_catalog.get ⟨1, by decide⟩).cond
          then (exEnv.actions_catalog.get ⟨1, by decide⟩).add_core else 0) ∧
    (gridMaxLaps exEnv exTrack1 1).getD exEnv.opponents.length 0 =
      exEnv.agent_car.maxLaps + (parse_type_bonus exTrack1.typeBonus).2 +
        (if (exEnv.actions_catalog.get ⟨1, by decide⟩).cond = [] ∨
            exTrack1.trackType ∈ (exEnv.actions_catalog.get ⟨1, by decide⟩).cond
          then (exEnv.actions_catalog.get ⟨1, by decide⟩).add_max else 0) :=
  effective_stats_rule exEnv exTrack1 1 (by decide)

/-- C3 witness: a finisher (third entry DNF) and a DNF competitor under a
noise outcome favouring the DNF competitor. -/
theorem dnf_ranked_strictly_below_witness :
    racePosition [1, 2] [false, true] [5, 5] 0 < racePosition [1, 2] [false, true] [5, 5] 1 :=
  dnf_ranked_strictly_below [1, 2] [false, true] [5, 5] 0 1 (by decide) (by decide)
    (by decide) (by decide)

/-- C4 witness: the amended claim theorem at the padded-table fixture, with
the agent finishing last (position 3, beyond the supplied table's length 2). -/
theorem points_rule_witness :
    c4Env.points_by_position =
      ([10, 5] : List Int) ++ List.replicate (c4Cars.length - ([10, 5] : List Int).length) 0 ∧
    (([false, false, false] : List Bool).getD 2 false = true → (0 : Int) = 0) ∧
    (([false, false, false] : List Bool).getD 2 false = false →
      (0 : Int) = c4Env.points_by_position.getD (3 - 1) 0) ∧
    (([false, false, false] : List Bool).getD 2 false = false →
      (([10, 5] : List Int)).length < 3 → (0 : Int) = 0) :=
  points_rule [c4Track] c4Cars none 0 [10, 5] false c4Env (by decide) (by decide)
    [5, 4, 3] [false, false, false] [0, 0, 0] 2 3 0
    (by
      norm_num +decide [rank_and_points, racePosition, rankOrder, keyLe, sortKey, pyBoolVal,
        List.insertionSort, List.orderedInsert, List.range, List.range.loop, c4Env])

/-- C5 witness: distinct perturbed core powers preserving the base order. -/
theorem higher_core_better_position_witness :
    racePosition [5, 3] [false, false] [0, 1] 0 < racePosition [5, 3] [false, false] [0, 1] 1 :=
  higher_core_better_position [5, 3] [false, false] [0, 1] 0 1 (by decide) (by decide)
    (by decide) (by norm_num [List.getD])

/-- C6 witness: the example environment has 2 tracks; two no-op steps drive
the episode to termination. -/
theorem episode_length_rule_witness :
    ∃ flags sN,
      runEpisode exEnv (resetFull exEnv exTracks).2
        [((0 : Int), ([0, 0, 0] : List ℚ)), ((0 : Int), ([0, 0, 0] : List ℚ))] =
        some (flags, sN) ∧
      flags.length = exEnv.tracks.length ∧
      (∀ m, ∀ hm : m < flags.length,
        flags.get ⟨m, hm⟩ = decide (m + 1 = exEnv.tracks.length)) ∧
      (∀ (a2 : Int) (nz : List ℚ), 0 ≤ a2 → a2 < (exEnv.n_actions : Int) →
        (stepFull exEnv sN a2 nz).1 = .error .cursorError) :=
  episode_length_rule exTracks exCars (some exUpgrades) 0 none false exEnv (by decide)
    exTracks (by decide) (by decide)
    [((0 : Int), ([0, 0, 0] : List ℚ)), ((0 : Int), ([0, 0, 0] : List ℚ))]
    (by decide) (by decide)

/-- C7 witness: action index 5 is out of range for the example environment
(its catalog has 2 actions). -/
theorem action_error_rule_witness :
    exEnv.n_actions = 1 + (match some exUpgrades with | none => 0 | some l => l.length) ∧
    ((stepFull exEnv ⟨exTracks, 0, 0⟩ 5 []).1 = .error .actionError ↔
      ¬ (0 ≤ (5 : Int) ∧ (5 : Int) < (exEnv.n_actions : Int))) ∧
    (¬ (0 ≤ (5 : Int) ∧ (5 : Int) < (exEnv.n_actions : Int)) →
      (stepFull exEnv ⟨exTracks, 0, 0⟩ 5 []).2 = ⟨exTracks, 0, 0⟩) :=
  action_error_rule exTracks exCars (some exUpgrades) 0 none false exEnv (by decide)
    ⟨exTracks, 0, 0⟩ 5 []

/-- C8 witness: the amended parser theorem at the spec's own example cell
`"30 Core Power"`. -/
theorem parse_type_bonus_rule_witness :
    parse_type_bonus "30 Core Power" =
      (if "Core" ∈ ["Core", "Power"] then ((30 : Int), (0 : Int))
        else if "Max" ∈ ["Core", "Power"] then (0, 30) else (0, 0)) ∧
    (∀ (c2 t2 : String) (r2 : List String), pyTokens c2 = t2 :: r2 → pyToInt t2 = none →
      parse_type_bonus c2 = (0, 0)) ∧
    (∀ c3 : String, pyTokens c3 = [] → parse_type_bonus c3 = (0, 0)) :=
  parse_type_bonus_rule "30 Core Power" "30" ["Core", "Power"] 30 (by decide) (by decide)

/-- C9 witness: reset on the example environment (2 tracks, no shuffling). -/
theorem reset_rule_witness :
    (resetFull exEnv exTracks).2.track_idx = 0 ∧
    (resetFull exEnv exTracks).2.total_reward = 0 ∧
    (1 ≤ exEnv.tracks.length → ∃ o, (resetFull exEnv exTracks).1 = .ok o) ∧
    (exEnv.tracks.length = 0 → (resetFull exEnv exTracks).1 = .error .cursorError) :=
  reset_rule exEnv exTracks (by decide)

/-- C10 witness: the in-bounds theorem at the example environment. -/
theorem points_lookup_in_bounds_witness :
    (∀ (tr : Track) (a : Nat) (noise : List ℚ),
      racePosition (gridCore exEnv tr a) (gridDnf exEnv tr a) noise
        ((gridCore exEnv tr a).length - 1) ≤ exCars.length) ∧
    exCars.length ≤ exEnv.points_by_position.length ∧
    (∀ (s : EnvState) (action : Int) (noise : List ℚ),
      (stepFull exEnv s action noise).1 ≠ .error .indexError) :=
  points_lookup_in_bounds exTracks exCars (some exUpgrades) 0 none false exEnv (by decide)

end Overdrive

section SanityChecks
example : Overdrive.parse_type_bonus "30 Core Power" = (30, 0) := by decide
example : Overdrive.parse_type_bonus "20 Max Laps" = (0, 20) := by decide
example : Overdrive.parse_type_bonus "30 Core" = (30, 0) := by decide
example : Overdrive.parse_type_bonus "  " = (0, 0) := by decide
example : Overdrive.parse_type_bonus "x Core Power" = (0, 0) := by decide
example : Overdrive.parse_type_bonus "-5 Max Laps" = (0, -5) := by decide
example : Overdrive.split_track_types "Sunny/Night" = ["Sunny", "Night"] := by decide
example : Overdrive.split_track_types " - " = [] := by decide
example : Overdrive.split_track_types "" = [] := by decide
end SanityChecks
